import Mathlib

/-!
# Colour-picker component (`src/App.js`): codec, contrast selector and state transitions

A shallow embedding of the logic of the `App` component.

Modelling conventions.
* A JavaScript string is a Lean `String` (a list of characters).  In the Basic Multilingual
  Plane a character and a UTF-16 code unit coincide; a character outside it is two code units
  in JavaScript, none of which is a hexadecimal digit, `#`, a sign or white space, so
  validation, trimming and parsing treat it as they treat the single character here.
* A JavaScript number is either an integer or `NaN` (`JSNumber := Option Int`); integers are
  exact, which agrees with IEEE doubles below `2 ^ 53`.  The 32-bit operators `>>` and `&`
  go through `toInt32`, with the wrap-around modulo `2 ^ 32` written out.
* `Math.random()` is a parameter `u : ℚ` of the functions that call it.
* The five `useState` cells are the fields of `UIState`; a handler is a function from the state
  of the render it was created in (and its event payload) to the state after the batched updates.
-/

namespace ColorGenerator

/-! ## JavaScript primitives used by the component -/

/-- A JavaScript number as it occurs in the component: an integer, or `NaN` (`none`). -/
abbrev JSNumber := Option Int

/-- The code points of `WhiteSpace` and `LineTerminator` (ECMAScript 12.2, 12.3): the characters
removed by `String.prototype.trim` and skipped by `parseInt`. -/
def isWhiteSpace (c : Char) : Bool :=
  let n := c.toNat
  n == 0x09 || n == 0x0A || n == 0x0B || n == 0x0C || n == 0x0D || n == 0x20 || n == 0xA0 ||
  n == 0x1680 || (0x2000 ≤ n && n ≤ 0x200A) || n == 0x2028 || n == 0x2029 || n == 0x202F ||
  n == 0x205F || n == 0x3000 || n == 0xFEFF

/-- The function `String.prototype.trimStart` on a list of characters. -/
def trimStartChars (l : List Char) : List Char :=
  l.dropWhile isWhiteSpace

/-- The function `String.prototype.trim`: white space removed at both ends. -/
def trim (s : String) : String :=
  String.mk (trimStartChars (trimStartChars s.data).reverse).reverse

/-- The function `String.prototype.slice(start)` with a non-negative `start`. -/
def slice (s : String) (start : Nat) : String :=
  String.mk (s.data.drop start)

/-- The function `String.prototype.padStart(targetLength, padString)` with a one-character
`padString`. -/
def padStart (s : String) (targetLength : Nat) (padChar : Char) : String :=
  String.mk (List.replicate (targetLength - s.length) padChar ++ s.data)

/-- The function `String.prototype.replace(pattern, replacement)` with a one-character string
`pattern` and the empty `replacement`: the FIRST occurrence of the character is removed. -/
def replaceFirstWithEmpty (s : String) (pattern : Char) : String :=
  String.mk (s.data.erase pattern)

/-- The function `String.prototype.toLowerCase`.  Only the mapping of the ASCII letters is
modelled; it is the whole mapping on strings of ASCII characters. -/
def toLowerCase (s : String) : String :=
  String.mk (s.data.map Char.toLower)

/-- The numeric value of a character as a digit, `0-9`, `a-z` or `A-Z`; `none` for any other
character. -/
def digitValue (c : Char) : Option Nat :=
  let n := c.toNat
  if 48 ≤ n ∧ n ≤ 57 then some (n - 48)
  else if 97 ≤ n ∧ n ≤ 122 then some (n - 97 + 10)
  else if 65 ≤ n ∧ n ≤ 90 then some (n - 65 + 10)
  else none

/-- Whether a character is a digit of the radix `R`. -/
def isRadixDigit (R : Nat) (c : Char) : Bool :=
  match digitValue c with
  | some d => decide (d < R)
  | none => false

/-- The mathematical integer written by a list of radix-`R` digits, most significant first. -/
def digitsValue (R : Nat) (l : List Char) : Nat :=
  l.foldl (fun acc c => acc * R + (digitValue c).getD 0) 0

/-- The function `parseInt(string, radix)` (ECMAScript 19.2.5); `radix = 0` stands for an absent
radix.  Leading white space is skipped, a sign is read, with radix 16 or an absent radix a
`0x`/`0X` prefix is removed, and the longest prefix of digits of the radix is the value; there
being no digit the result is `NaN`. -/
def parseInt (string : String) (radix : Nat) : JSNumber :=
  let S := trimStartChars string.data
  let negative := S.head? == some '-'
  let S := if S.head? == some '-' || S.head? == some '+' then S.drop 1 else S
  if radix ≠ 0 ∧ (radix < 2 ∨ 36 < radix) then none
  else
    let stripPrefix := radix == 0 || radix == 16
    let R := if radix == 0 then 10 else radix
    let hasPrefix := stripPrefix && (S.take 2 == ['0', 'x'] || S.take 2 == ['0', 'X'])
    let S := if hasPrefix then S.drop 2 else S
    let R := if hasPrefix then 16 else R
    let Z := S.takeWhile (isRadixDigit R)
    if Z.isEmpty then none
    else
      let mathInt : Int := digitsValue R Z
      some (if negative then -mathInt else mathInt)

/-- The function `Number.prototype.toString(radix)` on an integer or `NaN`: lowercase digits, a
leading `-` for a negative number. -/
def numberToString (x : JSNumber) (radix : Nat) : String :=
  match x with
  | none => "NaN"
  | some i =>
    if i < 0 then String.mk ('-' :: Nat.toDigits radix i.natAbs)
    else String.mk (Nat.toDigits radix i.toNat)

/-- The abstract operation `ToInt32`: `NaN` becomes `0`, an integer is reduced modulo `2 ^ 32`
into the signed 32-bit range. -/
def toInt32 (x : JSNumber) : Int :=
  match x with
  | none => 0
  | some i =>
    let m := i % 4294967296
    if 2147483648 ≤ m then m - 4294967296 else m

/-- The expression `(x >> k) & 0xff`: sign-propagating right shift of `ToInt32(x)` by `k` bits,
then the low 8 bits. -/
def shiftRightAndFF (x : JSNumber) (k : Nat) : JSNumber :=
  some ((toInt32 x / 2 ^ k) % 256)

/-! ## Regular expressions (the fragment used by `isValidHex`) -/

/-- One term of a pattern: a character class, or an optional character class (`x?`). -/
inductive Piece where
  | one (cls : Char → Bool)
  | opt (cls : Char → Bool)

/-- Backtracking match of a sequence of terms against ALL of the remaining input: the pattern is
anchored by `$`, which without the `m` flag matches at the end of the input only. -/
def matchHere : List Piece → List Char → Bool
  | [], s => s.isEmpty
  | Piece.one _ :: _, [] => false
  | Piece.one p :: ps, c :: s => p c && matchHere ps s
  | Piece.opt _ :: ps, [] => matchHere ps []
  | Piece.opt p :: ps, c :: s => (p c && matchHere ps s) || matchHere ps (c :: s)

/-- The character class `[A-Fa-f0-9]`. -/
def hexClass (c : Char) : Bool :=
  ('A' ≤ c && c ≤ 'F') || ('a' ≤ c && c ≤ 'f') || ('0' ≤ c && c ≤ '9')

/-- The pattern `/^#?[A-Fa-f0-9]{6}$/`, the quantifier `{6}` written out. -/
def hexPattern : List Piece :=
  Piece.opt (fun c => c == '#') :: List.replicate 6 (Piece.one hexClass)

/-! ## The component -/

/-- The state of the component: its five `useState` cells (`App.js` lines 10-14). -/
structure UIState where
  color : String
  inputValue : String
  copied : Bool
  error : String
  showSliders : Bool
  deriving DecidableEq, Repr

/-- The object `{r, g, b}` built by `hexToRgb`. -/
structure RGB where
  r : JSNumber
  g : JSNumber
  b : JSNumber
  deriving DecidableEq, Repr

/-- The property names `'r'`, `'g'`, `'b'` the sliders are created for (`App.js` line 192). -/
inductive Channel where
  | r
  | g
  | b
  deriving DecidableEq, Repr

/-- The function `generateRandomHex` (`App.js` lines 4-7), `u` being the value of
`Math.random()`. -/
def generateRandomHex (u : ℚ) : String :=
  let hex := padStart (numberToString (some ⌊u * 16777215⌋) 16) 6 '0'
  "#" ++ hex

/-- The function `getLuminance` (`App.js` lines 16-24), the weighted sum taken in exact
rational arithmetic. -/
def getLuminance (hex : String) : ℚ :=
  let rgb := parseInt (slice hex 1) 16
  let r : ℚ := ((shiftRightAndFF rgb 16).getD 0 : Int)
  let g : ℚ := ((shiftRightAndFF rgb 8).getD 0 : Int)
  let b : ℚ := ((shiftRightAndFF rgb 0).getD 0 : Int)
  let lum := 0.2126 * r + 0.7152 * g + 0.0722 * b
  lum

/-- The constant `isLightColor` (`App.js` line 26), as a function of the committed colour. -/
def isLightColor (color : String) : Bool :=
  decide (getLuminance color > 128)

/-- The constant `contrastColor` (`App.js` line 27), as a function of the committed colour. -/
def contrastColor (color : String) : String :=
  if isLightColor color then "#000000" else "#ffffff"

/-- The function `hexToRgb` (`App.js` lines 29-36). -/
def hexToRgb (hex : String) : RGB :=
  let rgb := parseInt (slice hex 1) 16
  { r := shiftRightAndFF rgb 16
    g := shiftRightAndFF rgb 8
    b := shiftRightAndFF rgb 0 }

/-- The function `rgbToHex` (`App.js` lines 38-40). -/
def rgbToHex (r g b : JSNumber) : String :=
  "#" ++ String.join ([r, g, b].map (fun x => padStart (numberToString x 16) 2 '0'))

/-- The function `isValidHex` (`App.js` lines 42-45): `hexPattern.test(hex)`. -/
def isValidHex (hex : String) : Bool :=
  matchHere hexPattern hex.data

/-- The function `normalizeHex` (`App.js` lines 47-50). -/
def normalizeHex (hex : String) : String :=
  let hex := replaceFirstWithEmpty hex '#'
  "#" ++ toLowerCase hex

/-- The message set by `handleInputChange` on an invalid, non-blank input (`App.js` line 63). -/
def formatMessage : String :=
  "Hex codes use # followed by exactly 6 characters (0-9, A-F). For example: #FF5733"

/-- The handler `handleInputChange` (`App.js` lines 52-65); `value` is `e.target.value`. -/
def handleInputChange (s : UIState) (value : String) : UIState :=
  let s := { s with inputValue := value }
  let s := { s with error := "" }
  if isValidHex value then
    let normalized := normalizeHex value
    let s := { s with color := normalized }
    let s := { s with inputValue := normalized }
    { s with copied := false }
  else if trim value ≠ "" then
    { s with error := formatMessage }
  else s

/-- The assignment `rgb[channel] = x` for one of the three property names. -/
def RGB.set (rgb : RGB) (channel : Channel) (x : JSNumber) : RGB :=
  match channel with
  | Channel.r => { rgb with r := x }
  | Channel.g => { rgb with g := x }
  | Channel.b => { rgb with b := x }

/-- The property read `rgb[channel]`. -/
def RGB.get (rgb : RGB) (channel : Channel) : JSNumber :=
  match channel with
  | Channel.r => rgb.r
  | Channel.g => rgb.g
  | Channel.b => rgb.b

/-- The handler `handleSliderChange` (`App.js` lines 67-75); `value` is the string
`e.target.value` of the range input. -/
def handleSliderChange (s : UIState) (channel : Channel) (value : String) : UIState :=
  let rgb := hexToRgb s.color
  let rgb := rgb.set channel (parseInt value 0)
  let newColor := rgbToHex rgb.r rgb.g rgb.b
  let s := { s with color := newColor }
  let s := { s with inputValue := newColor }
  let s := { s with error := "" }
  { s with copied := false }

/-- The handler `handleShuffle` (`App.js` lines 77-83), `u` being the value of
`Math.random()`. -/
def handleShuffle (s : UIState) (u : ℚ) : UIState :=
  let newColor := generateRandomHex u
  let s := { s with color := newColor }
  let s := { s with inputValue := newColor }
  let s := { s with copied := false }
  { s with error := "" }

/-- The click handler of the Edit/Hide button (`App.js` line 143). -/
def toggleSliders (s : UIState) : UIState :=
  { s with showSliders := !s.showSliders }

/-- The state update of `handleCopy` (`App.js` lines 85-89) once the clipboard write has
resolved: `setCopied(true)`.  (A rejected write throws at the `await` and updates nothing.) -/
def handleCopy (s : UIState) : UIState :=
  { s with copied := true }

/-- The callback passed to `setTimeout` by `handleCopy` (`App.js` line 88). -/
def copyTimeout (s : UIState) : UIState :=
  { s with copied := false }

/-- The state of the first render (`App.js` lines 9-14), `u` being the value of
`Math.random()`. -/
def initialState (u : ℚ) : UIState :=
  let initialColor := generateRandomHex u
  { color := initialColor
    inputValue := initialColor
    copied := false
    error := ""
    showSliders := false }


/-! ## Specification-side notions -/

/-- A character of `[0-9A-Fa-f]`, as the specification writes the class. -/
def IsHexChar (c : Char) : Prop :=
  ('0' ≤ c ∧ c ≤ '9') ∨ ('A' ≤ c ∧ c ≤ 'F') ∨ ('a' ≤ c ∧ c ≤ 'f')

/-- A lowercase hexadecimal digit, `0-9` or `a-f`. -/
def isLowerHexDigit (c : Char) : Bool :=
  ('0' ≤ c && c ≤ '9') || ('a' ≤ c && c ≤ 'f')

/-- The string with at most one leading `#` removed. -/
def stripLeadingHash (l : List Char) : List Char :=
  match l with
  | [] => []
  | c :: t => if c = '#' then t else c :: t

/-- The wording of the specification for a valid hex string: after removing at most one leading
`#`, exactly 6 characters, each in `[0-9A-Fa-f]`. -/
def SpecValidHex (s : String) : Prop :=
  (stripLeadingHash s.data).length = 6 ∧ ∀ c ∈ stripLeadingHash s.data, IsHexChar c

/-- The canonical hex form: exactly 7 characters, `#` followed by 6 lowercase hexadecimal
digits. -/
def isNormalizedHex (s : String) : Bool :=
  s.length == 7 && s.data.head? == some '#' && (s.data.drop 1).all isLowerHexDigit

/-- The canonical hex form, spelled out: exactly 7 characters, the first `#`, the other six in
`0-9` or `a-f`. -/
def IsCanonicalHex (s : String) : Prop :=
  s.length = 7 ∧ ∃ t, s = String.mk ('#' :: t) ∧ t.length = 6 ∧
    ∀ c ∈ t, ('0' ≤ c ∧ c ≤ '9') ∨ ('a' ≤ c ∧ c ≤ 'f')

/-- The `k` lowercase hexadecimal digits of `n` modulo `16 ^ k`, most significant first. -/
def hexFixed : Nat → Nat → List Char
  | 0, _ => []
  | k + 1, n => hexFixed k (n / 16) ++ [Nat.digitChar (n % 16)]

/-! ## Events and runs -/

/-- The user intents and the timer callback that update the state. -/
inductive Event where
  | textInput (rawValue : String)
  | sliderChange (channel : Channel) (value : Nat)
  | shuffle (u : ℚ)
  | toggleSliders
  | copy
  | copyTimeout
  deriving DecidableEq

/-- The state after one event.  A slider reports its position as the decimal string of an
integer (`e.target.value` of the range input). -/
def step (s : UIState) (e : Event) : UIState :=
  match e with
  | Event.textInput rawValue => handleInputChange s rawValue
  | Event.sliderChange channel value => handleSliderChange s channel (toString value)
  | Event.shuffle u => handleShuffle s u
  | Event.toggleSliders => toggleSliders s
  | Event.copy => handleCopy s
  | Event.copyTimeout => copyTimeout s

/-- The events the environment can deliver: a slider position lies in the slider's domain
`[0, 255]` (`min="0"`, `max="255"`), a random draw lies in `[0, 1)`. -/
def Event.Admissible (e : Event) : Prop :=
  match e with
  | Event.sliderChange _ value => value ≤ 255
  | Event.shuffle u => 0 ≤ u ∧ u < 1
  | _ => True

/-- The state after a finite sequence of events. -/
def run (s : UIState) (es : List Event) : UIState :=
  es.foldl step s

/-! ## Timers -/

/-- The component together with a clock (in milliseconds) and the due times of the pending
`setTimeout(() => setCopied(false), 2000)` callbacks.  `handleCopy` keeps no timer handle and
the component never calls `clearTimeout`, so a pending callback is only ever removed by
running it. -/
structure Timed where
  ui : UIState
  now : Nat
  timers : List Nat
  deriving DecidableEq

/-- The component with state `s` at time `t`, no timer pending. -/
def Timed.start (s : UIState) (t : Nat) : Timed :=
  { ui := s, now := t, timers := [] }

/-- A clipboard write resolving at the current time: the rest of `handleCopy` runs,
`setCopied(true)` and `setTimeout(() => setCopied(false), 2000)` (`App.js` lines 87-88). -/
def Timed.copy (c : Timed) : Timed :=
  { c with ui := handleCopy c.ui, timers := c.timers ++ [c.now + 2000] }

/-- Time passes until `t`: every pending callback due at or before `t` runs. -/
def Timed.advance (c : Timed) (t : Nat) : Timed :=
  { ui := (c.timers.filter (fun due => due ≤ t)).foldl (fun s _ => copyTimeout s) c.ui
    now := max c.now t
    timers := c.timers.filter (fun due => ¬ due ≤ t) }

/-- The flag `copied` at time `t`, after clipboard writes resolved at `t0` and at `t1` and no
other event, from the state `s` with no timer pending. -/
def copiedAfterTwoCopies (s : UIState) (t0 t1 t : Nat) : Bool :=
  ((((Timed.start s t0).copy.advance t1).copy).advance t).ui.copied

/-! ## Validation -/

theorem hexClass_iff (c : Char) : hexClass c = true ↔ IsHexChar c := by
  simp only [hexClass, IsHexChar, Bool.or_eq_true, Bool.and_eq_true, decide_eq_true_eq]
  tauto

theorem matchHere_replicate_one (p : Char → Bool) (n : Nat) (s : List Char) :
    matchHere (List.replicate n (Piece.one p)) s = (decide (s.length = n) && s.all p) := by
  induction n generalizing s with
  | zero =>
    cases s with
    | nil => simp [matchHere]
    | cons c t => simp [matchHere]
  | succ k ih =>
    cases s with
    | nil => simp [List.replicate_succ, matchHere]
    | cons c t =>
      simp only [List.replicate_succ, matchHere, ih, List.length_cons, List.all_cons,
        Nat.add_right_cancel_iff]
      cases p c <;> simp

theorem isValidHex_eq (s : String) :
    isValidHex s = (decide ((stripLeadingHash s.data).length = 6) &&
      (stripLeadingHash s.data).all hexClass) := by
  unfold isValidHex hexPattern
  cases hs : s.data with
  | nil => simp [matchHere, stripLeadingHash, matchHere_replicate_one]
  | cons c t =>
    simp only [matchHere, matchHere_replicate_one, stripLeadingHash]
    by_cases hc : c = '#'
    · subst hc
      have h : hexClass '#' = false := by decide
      simp [h]
    · have hb : (c == '#') = false := by simpa using hc
      simp only [hb, Bool.false_and, Bool.false_or, hc, if_false, List.length_cons,
        List.all_cons, Nat.add_right_cancel_iff]
      cases hexClass c <;> simp

/-- C2: `isValidHex s` holds exactly when `s`, with at most one leading `#` removed, consists of
exactly 6 characters each in `[0-9A-Fa-f]`; it holds for `"#ff00aa"` and `"FF00AA"` and fails for
`"#ff00a"`, `"#ff00aag"`, `"zzzzzz"` and the empty string. -/
theorem isValidHex_iff_spec :
    (∀ s : String, isValidHex s = true ↔ SpecValidHex s) ∧
    isValidHex "#ff00aa" = true ∧ isValidHex "FF00AA" = true ∧
    isValidHex "#ff00a" = false ∧ isValidHex "#ff00aag" = false ∧
    isValidHex "zzzzzz" = false ∧ isValidHex "" = false := by
  refine ⟨fun s => ?_, by decide, by decide, by decide, by decide, by decide, by decide⟩
  rw [isValidHex_eq]
  simp only [SpecValidHex, Bool.and_eq_true, decide_eq_true_eq, List.all_eq_true, hexClass_iff]


/-! ## Hexadecimal digits -/

theorem hexFixed_length (k n : Nat) : (hexFixed k n).length = k := by
  induction k generalizing n with
  | zero => rfl
  | succ k ih => simp [hexFixed, ih]

theorem hexFixed_zero (k : Nat) : hexFixed k 0 = List.replicate k '0' := by
  induction k with
  | zero => rfl
  | succ k ih =>
    simp only [hexFixed, Nat.zero_div, Nat.zero_mod, ih]
    rw [List.replicate_succ']
    rfl

theorem hexFixed_add (j k n : Nat) :
    hexFixed (j + k) n = hexFixed j (n / 16 ^ k) ++ hexFixed k n := by
  induction k generalizing n with
  | zero => simp [hexFixed]
  | succ k ih =>
    rw [← Nat.add_assoc]
    simp only [hexFixed, ih, List.append_assoc]
    rw [Nat.div_div_eq_div_mul, Nat.pow_succ, Nat.mul_comm]

theorem hexFixed_mem (k n : Nat) (c : Char) (h : c ∈ hexFixed k n) :
    ∃ d, d < 16 ∧ c = Nat.digitChar d := by
  induction k generalizing n with
  | zero => simp [hexFixed] at h
  | succ k ih =>
    simp only [hexFixed, List.mem_append, List.mem_singleton] at h
    rcases h with h | h
    · exact ih _ h
    · exact ⟨n % 16, Nat.mod_lt _ (by decide), h⟩

theorem toDigitsCore_hex (fuel : Nat) :
    ∀ n ds k, n < fuel → n < 16 ^ (k + 1) →
      ∃ p, p ≤ k ∧ Nat.toDigitsCore 16 fuel n ds = hexFixed (p + 1) n ++ ds ∧
        hexFixed (k + 1) n = List.replicate (k - p) '0' ++ hexFixed (p + 1) n := by
  induction fuel with
  | zero => intro n ds k h; omega
  | succ f ih =>
    intro n ds k hn hk
    by_cases h0 : n / 16 = 0
    · refine ⟨0, Nat.zero_le _, ?_, ?_⟩
      · simp [Nat.toDigitsCore, h0, hexFixed]
      · have : hexFixed (k + 1) n = hexFixed k (n / 16) ++ [Nat.digitChar (n % 16)] := rfl
        rw [this, h0, hexFixed_zero]
        simp [hexFixed]
    · have h16 : 16 ≤ n := by
        by_contra hlt
        exact h0 (Nat.div_eq_of_lt (by omega))
      obtain ⟨k', rfl⟩ : ∃ k', k = k' + 1 := by
        cases k with
        | zero => simp at hk; omega
        | succ k' => exact ⟨k', rfl⟩
      have hdiv : n / 16 < f := by omega
      have hpow : n / 16 < 16 ^ (k' + 1) := by
        rw [Nat.div_lt_iff_lt_mul (by decide)]
        rw [Nat.pow_succ] at hk
        exact hk
      obtain ⟨p, hp, hcore, hpad⟩ := ih (n / 16) (Nat.digitChar (n % 16) :: ds) k' hdiv hpow
      refine ⟨p + 1, by omega, ?_, ?_⟩
      · simp only [Nat.toDigitsCore, h0, if_false, hcore]
        simp [hexFixed]
      · have e1 : hexFixed (k' + 1 + 1) n =
            hexFixed (k' + 1) (n / 16) ++ [Nat.digitChar (n % 16)] := rfl
        have e2 : hexFixed (p + 1 + 1) n =
            hexFixed (p + 1) (n / 16) ++ [Nat.digitChar (n % 16)] := rfl
        rw [e1, e2, hpad, Nat.add_sub_add_right, List.append_assoc]

/-- Zero-padding the hexadecimal numeral of `n` to `k + 1` digits gives the `k + 1` digits of
`n`, when `n` has no more. -/
theorem padStart_toDigits (n k : Nat) (h : n < 16 ^ (k + 1)) :
    padStart (String.mk (Nat.toDigits 16 n)) (k + 1) '0' = String.mk (hexFixed (k + 1) n) := by
  obtain ⟨p, hp, hcore, hpad⟩ := toDigitsCore_hex (n + 1) n [] k (Nat.lt_succ_self n) h
  have hd : Nat.toDigits 16 n = hexFixed (p + 1) n := by
    simp only [Nat.toDigits, hcore, List.append_nil]
  simp only [padStart, hd, String.length, hexFixed_length]
  rw [hpad, Nat.add_sub_add_right]

/-! ## Parsing hexadecimal digits -/

theorem digitChar_facts : ∀ d, d < 16 →
    digitValue (Nat.digitChar d) = some d ∧ isWhiteSpace (Nat.digitChar d) = false ∧
    Nat.digitChar d ≠ '-' ∧ Nat.digitChar d ≠ '+' ∧ Nat.digitChar d ≠ 'x' ∧
    Nat.digitChar d ≠ 'X' ∧ Nat.digitChar d ≠ '#' ∧
    isLowerHexDigit (Nat.digitChar d) = true ∧ (Nat.digitChar d).toLower = Nat.digitChar d := by
  decide

theorem digitsValue_append_singleton (R : Nat) (l : List Char) (c : Char) :
    digitsValue R (l ++ [c]) = digitsValue R l * R + (digitValue c).getD 0 := by
  simp [digitsValue, List.foldl_append]

theorem digitsValue_hexFixed (k n : Nat) : digitsValue 16 (hexFixed k n) = n % 16 ^ k := by
  induction k generalizing n with
  | zero => simp [hexFixed, digitsValue, Nat.mod_one]
  | succ k ih =>
    have hd := (digitChar_facts (n % 16) (Nat.mod_lt _ (by decide))).1
    simp only [hexFixed, digitsValue_append_singleton, ih, hd, Option.getD_some]
    rw [Nat.pow_succ, Nat.mul_comm (16 ^ k) 16, Nat.mod_mul]
    omega

theorem isRadixDigit_of_digitChar (c : Char) (h : ∃ d, d < 16 ∧ c = Nat.digitChar d) :
    isRadixDigit 16 c = true := by
  obtain ⟨d, hd, rfl⟩ := h
  simp [isRadixDigit, (digitChar_facts d hd).1, hd]

theorem parseInt_hexDigits (c : Char) (t : List Char)
    (h : ∀ x ∈ c :: t, ∃ d, d < 16 ∧ x = Nat.digitChar d) :
    parseInt (String.mk (c :: t)) 16 = some (digitsValue 16 (c :: t) : Int) := by
  obtain ⟨d, hd, hc⟩ := h c (List.mem_cons_self _ _)
  obtain ⟨-, hws, hminus, hplus, -⟩ := digitChar_facts d hd
  rw [← hc] at hws hminus hplus
  have htrim : trimStartChars (c :: t) = c :: t := by
    simp [trimStartChars, List.dropWhile, hws]
  have htake : List.takeWhile (isRadixDigit 16) (c :: t) = c :: t := by
    rw [List.takeWhile_eq_self_iff]
    exact fun x hx => isRadixDigit_of_digitChar x (h x hx)
  have hpre : (List.take 2 (c :: t) == ['0', 'x'] || List.take 2 (c :: t) == ['0', 'X']) = false := by
    cases t with
    | nil => simp
    | cons c2 t2 =>
      obtain ⟨d2, hd2, hc2⟩ := h c2 (by simp)
      obtain ⟨-, -, -, -, hx, hX, -⟩ := digitChar_facts d2 hd2
      rw [← hc2] at hx hX
      simp [hx, hX]
  have h1 : (some c == some '-') = false := by simpa using hminus
  have h2 : (some c == some '+') = false := by simpa using hplus
  simp only [parseInt, htrim, List.head?_cons, h1, h2, Bool.or_self, Bool.false_eq_true,
    if_false, hpre, Bool.and_false, htake]
  have h3 : (if ((16 : Nat) == 0) = true then 10 else 16) = 16 := by decide
  have h4 : ¬ ((16 : Nat) ≠ 0 ∧ (16 < 2 ∨ 36 < 16)) := by decide
  rw [h3, htake, if_neg h4]
  simp

theorem parseInt_hexFixed (k n : Nat) (h : n < 16 ^ (k + 1)) :
    parseInt (String.mk (hexFixed (k + 1) n)) 16 = some (n : Int) := by
  have hlen := hexFixed_length (k + 1) n
  cases hl : hexFixed (k + 1) n with
  | nil => rw [hl] at hlen; simp at hlen
  | cons c t =>
    have hall : ∀ x ∈ c :: t, ∃ d, d < 16 ∧ x = Nat.digitChar d := by
      intro x hx
      rw [← hl] at hx
      exact hexFixed_mem _ _ _ hx
    rw [parseInt_hexDigits c t hall, ← hl, digitsValue_hexFixed, Nat.mod_eq_of_lt h]

/-! ## The codec on bytes -/

/-- The 24-bit value with the bytes `r`, `g`, `b`, most significant first. -/
theorem hexFixed_bytes (r g b : Nat) (hg : g < 256) (hb : b < 256) :
    hexFixed 2 r ++ (hexFixed 2 g ++ hexFixed 2 b) = hexFixed 6 (r * 65536 + g * 256 + b) := by
  have h6 := hexFixed_add 2 4 (r * 65536 + g * 256 + b)
  have h4 := hexFixed_add 2 2 (r * 65536 + g * 256 + b)
  have p4 : (16 : Nat) ^ 4 = 65536 := by norm_num
  have p2 : (16 : Nat) ^ 2 = 256 := by norm_num
  have e1 : (r * 65536 + g * 256 + b) / 16 ^ 4 = r := by rw [p4]; omega
  rw [show (2 + 4 = 6) from rfl, e1] at h6
  rw [show (2 + 2 = 4) from rfl] at h4
  rw [h6, h4, p2]
  have a1 : (r * 65536 + g * 256 + b) / 256 / 16 % 16 = g / 16 % 16 := by omega
  have a2 : (r * 65536 + g * 256 + b) / 256 % 16 = g % 16 := by omega
  have a3 : (r * 65536 + g * 256 + b) / 16 % 16 = b / 16 % 16 := by omega
  have a4 : (r * 65536 + g * 256 + b) % 16 = b % 16 := by omega
  simp only [hexFixed, a1, a2, a3, a4]

theorem padStart_byte (x : Int) (h0 : 0 ≤ x) (h1 : x ≤ 255) :
    padStart (numberToString (some x) 16) 2 '0' = String.mk (hexFixed 2 x.toNat) := by
  have hlt : ¬ x < 0 := by omega
  simp only [numberToString, hlt, if_false]
  exact padStart_toDigits x.toNat 1 (by norm_num; omega)

theorem rgbToHex_bytes (r g b : Int) (hr : 0 ≤ r ∧ r ≤ 255) (hg : 0 ≤ g ∧ g ≤ 255)
    (hb : 0 ≤ b ∧ b ≤ 255) :
    rgbToHex (some r) (some g) (some b) =
      String.mk ('#' :: hexFixed 6 (r.toNat * 65536 + g.toNat * 256 + b.toNat)) := by
  rw [← hexFixed_bytes _ _ _ (by omega) (by omega)]
  simp only [rgbToHex, List.map, padStart_byte r hr.1 hr.2, padStart_byte g hg.1 hg.2,
    padStart_byte b hb.1 hb.2]
  apply String.ext
  simp [String.join, String.data_append]

theorem hexToRgb_hexFixed (n : Nat) (h : n < 16777216) :
    hexToRgb (String.mk ('#' :: hexFixed 6 n)) =
      { r := some ((n / 65536 : Nat) : Int)
        g := some ((n / 256 % 256 : Nat) : Int)
        b := some ((n % 256 : Nat) : Int) } := by
  have hp : parseInt (slice (String.mk ('#' :: hexFixed 6 n)) 1) 16 = some (n : Int) := by
    simp only [slice, List.drop_succ_cons, List.drop_zero]
    exact parseInt_hexFixed 5 n (by norm_num; exact h)
  have h32 : toInt32 (some (n : Int)) = (n : Int) := by
    simp only [toInt32]
    split <;> omega
  simp only [hexToRgb, hp, shiftRightAndFF, h32]
  norm_num
  omega

/-- C1: for all integers `r`, `g`, `b` in `[0, 255]`, decoding the hex encoding of the triple
with `hexToRgb` gives the triple back. -/
theorem hexToRgb_rgbToHex (r g b : Int) (hr : 0 ≤ r ∧ r ≤ 255) (hg : 0 ≤ g ∧ g ≤ 255)
    (hb : 0 ≤ b ∧ b ≤ 255) :
    hexToRgb (rgbToHex (some r) (some g) (some b)) = { r := some r, g := some g, b := some b } := by
  rw [rgbToHex_bytes r g b hr hg hb, hexToRgb_hexFixed _ (by omega)]
  congr 2 <;> omega

theorem hexToRgb_rgbToHex_witness :
    hexToRgb (rgbToHex (some 18) (some 171) (some 255)) =
      { r := some 18, g := some 171, b := some 255 } :=
  hexToRgb_rgbToHex 18 171 255 (by decide) (by decide) (by decide)

/-! ## Characters of the hexadecimal classes -/

theorem char_le_iff (a b : Char) : a ≤ b ↔ a.toNat ≤ b.toNat := Iff.rfl

/-- The 22 characters of `[A-Fa-f0-9]`. -/
theorem hexClass_mem (c : Char) (h : hexClass c = true) :
    c ∈ ['0', '1', '2', '3', '4', '5', '6', '7', '8', '9', 'a', 'b', 'c', 'd', 'e', 'f',
      'A', 'B', 'C', 'D', 'E', 'F'] := by
  have hc : Char.ofNat c.toNat = c := Char.ofNat_toNat c
  simp only [hexClass, Bool.or_eq_true, Bool.and_eq_true, decide_eq_true_eq, char_le_iff] at h
  have e1 : 'A'.toNat = 65 := rfl
  have e2 : 'F'.toNat = 70 := rfl
  have e3 : 'a'.toNat = 97 := rfl
  have e4 : 'f'.toNat = 102 := rfl
  have e5 : '0'.toNat = 48 := rfl
  have e6 : '9'.toNat = 57 := rfl
  rw [e1, e2, e3, e4, e5, e6] at h
  generalize c.toNat = n at h hc
  subst hc
  rcases h with (⟨h1, h2⟩ | ⟨h1, h2⟩) | ⟨h1, h2⟩ <;> interval_cases n <;> decide

theorem hexChars_facts : ∀ c ∈ ['0', '1', '2', '3', '4', '5', '6', '7', '8', '9', 'a', 'b', 'c',
    'd', 'e', 'f', 'A', 'B', 'C', 'D', 'E', 'F'],
    c ≠ '#' ∧ isLowerHexDigit c.toLower = true ∧ isWhiteSpace c = false := by
  decide

theorem isLowerHexDigit_facts (c : Char) (h : isLowerHexDigit c = true) :
    hexClass c = true ∧ c.toLower = c ∧ c ≠ '#' := by
  have hh : hexClass c = true := by
    simp only [isLowerHexDigit, Bool.or_eq_true, Bool.and_eq_true] at h
    simp only [hexClass, Bool.or_eq_true, Bool.and_eq_true]
    tauto
  have hm := hexClass_mem c hh
  have key : ∀ x ∈ ['0', '1', '2', '3', '4', '5', '6', '7', '8', '9', 'a', 'b', 'c',
      'd', 'e', 'f', 'A', 'B', 'C', 'D', 'E', 'F'],
      isLowerHexDigit x = true → x.toLower = x ∧ x ≠ '#' := by decide
  exact ⟨hh, key c hm h⟩

/-! ## The canonical form -/

theorem isNormalizedHex_mk (t : List Char) (hlen : t.length = 6)
    (hall : ∀ c ∈ t, isLowerHexDigit c = true) :
    isNormalizedHex (String.mk ('#' :: t)) = true := by
  simp only [isNormalizedHex, String.length, List.length_cons, hlen, List.head?_cons,
    List.drop_succ_cons, List.drop_zero, Bool.and_eq_true, beq_self_eq_true, true_and,
    List.all_eq_true]
  exact hall

theorem isNormalizedHex_cases (s : String) (h : isNormalizedHex s = true) :
    ∃ t, s = String.mk ('#' :: t) ∧ t.length = 6 ∧ ∀ c ∈ t, isLowerHexDigit c = true := by
  obtain ⟨l⟩ := s
  simp only [isNormalizedHex, String.length, Bool.and_eq_true, beq_iff_eq, List.all_eq_true] at h
  obtain ⟨⟨hlen, hhead⟩, hall⟩ := h
  cases l with
  | nil => simp at hlen
  | cons c t =>
    simp only [List.head?_cons, Option.some.injEq] at hhead
    subst hhead
    simp only [List.length_cons] at hlen
    exact ⟨t, rfl, by omega, by simpa using hall⟩

theorem isNormalizedHex_hexFixed (n : Nat) :
    isNormalizedHex (String.mk ('#' :: hexFixed 6 n)) = true := by
  apply isNormalizedHex_mk _ (hexFixed_length 6 n)
  intro c hc
  obtain ⟨d, hd, rfl⟩ := hexFixed_mem 6 n c hc
  exact (digitChar_facts d hd).2.2.2.2.2.2.2.1

theorem isValidHex_of_isNormalizedHex (s : String) (h : isNormalizedHex s = true) :
    isValidHex s = true := by
  obtain ⟨t, rfl, hlen, hall⟩ := isNormalizedHex_cases s h
  rw [isValidHex_eq]
  simp only [stripLeadingHash, if_true, hlen, decide_True, Bool.true_and, List.all_eq_true]
  exact fun c hc => (isLowerHexDigit_facts c (hall c hc)).1

theorem hash_append_mk (l : List Char) : "#" ++ String.mk l = String.mk ('#' :: l) := by
  apply String.ext
  simp [String.data_append]

theorem normalizeHex_of_valid (s : String) (h : isValidHex s = true) :
    ∃ t, t.length = 6 ∧ (∀ c ∈ t, hexClass c = true) ∧
      (s.data = t ∨ s.data = '#' :: t) ∧
      normalizeHex s = String.mk ('#' :: t.map Char.toLower) := by
  rw [isValidHex_eq] at h
  simp only [Bool.and_eq_true, decide_eq_true_eq, List.all_eq_true] at h
  obtain ⟨hlen, hall⟩ := h
  cases hs : s.data with
  | nil => rw [hs] at hlen; simp [stripLeadingHash] at hlen
  | cons c t =>
    rw [hs] at hlen hall
    by_cases hc : c = '#'
    · subst hc
      simp only [stripLeadingHash, if_true] at hlen hall
      refine ⟨t, hlen, hall, Or.inr rfl, ?_⟩
      simp only [normalizeHex, replaceFirstWithEmpty, toLowerCase, hs, List.erase_cons_head,
        hash_append_mk]
    · simp only [stripLeadingHash, hc, if_false] at hlen hall
      refine ⟨c :: t, hlen, hall, Or.inl rfl, ?_⟩
      have hnot : '#' ∉ c :: t := by
        intro hmem
        exact (hexChars_facts _ (hexClass_mem _ (hall _ hmem))).1 rfl
      simp only [normalizeHex, replaceFirstWithEmpty, toLowerCase, hs,
        List.erase_of_not_mem hnot, hash_append_mk]

theorem isNormalizedHex_normalizeHex (s : String) (h : isValidHex s = true) :
    isNormalizedHex (normalizeHex s) = true := by
  obtain ⟨t, hlen, hall, -, hn⟩ := normalizeHex_of_valid s h
  rw [hn]
  apply isNormalizedHex_mk _ (by simpa using hlen)
  intro c hc
  obtain ⟨x, hx, rfl⟩ := List.mem_map.mp hc
  exact (hexChars_facts x (hexClass_mem x (hall x hx))).2.1

theorem normalizeHex_of_isNormalizedHex (s : String) (h : isNormalizedHex s = true) :
    normalizeHex s = s := by
  obtain ⟨t, rfl, -, hall⟩ := isNormalizedHex_cases s h
  have hmap : t.map Char.toLower = t := by
    conv_rhs => rw [← List.map_id t]
    exact List.map_congr_left (fun c hc => (isLowerHexDigit_facts c (hall c hc)).2.1)
  simp only [normalizeHex, replaceFirstWithEmpty, toLowerCase, List.erase_cons_head,
    hash_append_mk, hmap]

/-- C9: on a valid hex string (with or without `#`, in any letter case) `normalizeHex` yields
exactly 7 characters, `#` followed by 6 lowercase hexadecimal digits, and applying
`normalizeHex` again changes nothing. -/
theorem normalizeHex_canonical_idempotent (h : String) (hv : isValidHex h = true) :
    (normalizeHex h).length = 7 ∧
    (∃ t, normalizeHex h = String.mk ('#' :: t) ∧ t.length = 6 ∧
      ∀ c ∈ t, ('0' ≤ c ∧ c ≤ '9') ∨ ('a' ≤ c ∧ c ≤ 'f')) ∧
    normalizeHex (normalizeHex h) = normalizeHex h := by
  have hn := isNormalizedHex_normalizeHex h hv
  obtain ⟨t, ht, hlen, hall⟩ := isNormalizedHex_cases _ hn
  refine ⟨?_, ⟨t, ht, hlen, ?_⟩, normalizeHex_of_isNormalizedHex _ hn⟩
  · rw [ht]
    simp [String.length, hlen]
  · intro c hc
    have := hall c hc
    simpa [isLowerHexDigit] using this

theorem normalizeHex_canonical_idempotent_witness :
    isValidHex "Ab01eF" = true ∧ (normalizeHex "Ab01eF").length = 7 ∧
    (∃ t, normalizeHex "Ab01eF" = String.mk ('#' :: t) ∧ t.length = 6 ∧
      ∀ c ∈ t, ('0' ≤ c ∧ c ≤ '9') ∨ ('a' ≤ c ∧ c ≤ 'f')) ∧
    normalizeHex (normalizeHex "Ab01eF") = normalizeHex "Ab01eF" :=
  ⟨by decide, normalizeHex_canonical_idempotent "Ab01eF" (by decide)⟩

/-! ## Random colours -/

theorem floor_draw (u : ℚ) (h0 : 0 ≤ u) (h1 : u < 1) :
    0 ≤ ⌊u * 16777215⌋ ∧ ⌊u * 16777215⌋ < 16777215 := by
  constructor
  · exact Int.floor_nonneg.mpr (mul_nonneg h0 (by norm_num))
  · rw [Int.floor_lt]
    push_cast
    nlinarith

theorem generateRandomHex_of_floor (u : ℚ) (h0 : 0 ≤ ⌊u * 16777215⌋)
    (h1 : ⌊u * 16777215⌋ < 16777216) :
    generateRandomHex u = String.mk ('#' :: hexFixed 6 ⌊u * 16777215⌋.toNat) := by
  have hlt : ¬ ⌊u * 16777215⌋ < 0 := by omega
  simp only [generateRandomHex, numberToString, hlt, if_false]
  rw [padStart_toDigits _ 5 (by norm_num; omega), hash_append_mk]

theorem generateRandomHex_eq (u : ℚ) (h0 : 0 ≤ u) (h1 : u < 1) :
    generateRandomHex u = String.mk ('#' :: hexFixed 6 ⌊u * 16777215⌋.toNat) := by
  obtain ⟨hf0, hf1⟩ := floor_draw u h0 h1
  exact generateRandomHex_of_floor u hf0 (by omega)

theorem isNormalizedHex_generateRandomHex (u : ℚ) (h0 : 0 ≤ u) (h1 : u < 1) :
    isNormalizedHex (generateRandomHex u) = true := by
  rw [generateRandomHex_eq u h0 h1]
  exact isNormalizedHex_hexFixed _

theorem digitsValue_ffffff : digitsValue 16 "ffffff".data = 16777215 := by decide

/-- C8 (as the code behaves): no draw `u` in `[0, 1)` makes `generateRandomHex` return
`"#ffffff"`, because `⌊u * 16777215⌋` is at most `16777214`; every colour below it, from
`"#000000"` to `"#fffffe"`, is returned for the draw `n / 16777215`. -/
theorem generateRandomHex_misses_white :
    (∀ u : ℚ, 0 ≤ u → u < 1 → generateRandomHex u ≠ "#ffffff") ∧
    (∀ n : Nat, n < 16777215 →
      0 ≤ (n : ℚ) / 16777215 ∧ (n : ℚ) / 16777215 < 1 ∧
      generateRandomHex ((n : ℚ) / 16777215) = String.mk ('#' :: hexFixed 6 n)) := by
  constructor
  · intro u h0 h1 heq
    obtain ⟨hf0, hf1⟩ := floor_draw u h0 h1
    rw [generateRandomHex_eq u h0 h1] at heq
    have hd : hexFixed 6 ⌊u * 16777215⌋.toNat = "ffffff".data := by
      have := congrArg String.data heq
      simpa using this
    have hv := digitsValue_hexFixed 6 ⌊u * 16777215⌋.toNat
    rw [hd, digitsValue_ffffff] at hv
    have hmod : ⌊u * 16777215⌋.toNat % 16 ^ 6 = ⌊u * 16777215⌋.toNat :=
      Nat.mod_eq_of_lt (by norm_num; omega)
    omega
  · intro n hn
    have hq : (n : ℚ) < 16777215 := by exact_mod_cast hn
    have hfl : ⌊(n : ℚ) / 16777215 * 16777215⌋ = (n : Int) := by
      rw [div_mul_cancel₀ _ (by norm_num : (16777215 : ℚ) ≠ 0)]
      exact Int.floor_natCast n
    refine ⟨by positivity, by rw [div_lt_one (by norm_num)]; exact hq, ?_⟩
    rw [generateRandomHex_of_floor _ (by rw [hfl]; omega) (by rw [hfl]; omega), hfl]
    rfl

theorem generateRandomHex_misses_white_witness :
    generateRandomHex (16777214 / 16777215) ≠ "#ffffff" :=
  generateRandomHex_misses_white.1 (16777214 / 16777215) (by norm_num) (by norm_num)

/-! ## Text input -/

theorem formatMessage_ne_empty : formatMessage ≠ "" := by decide

theorem trim_eq_empty_iff (s : String) :
    trim s = "" ↔ ∀ c ∈ s.data, isWhiteSpace c = true := by
  have hmk : ∀ l : List Char, String.mk l = "" ↔ l = [] := by
    intro l
    constructor
    · intro h
      simpa using congrArg String.data h
    · rintro rfl
      rfl
  simp only [trim, trimStartChars, hmk, List.reverse_eq_nil_iff, List.dropWhile_eq_nil_iff,
    List.mem_reverse]
  constructor
  · intro h
    have hnil : List.dropWhile isWhiteSpace s.data = [] := by
      cases hd : List.dropWhile isWhiteSpace s.data with
      | nil => rfl
      | cons c t =>
        have h1 : isWhiteSpace c = true := h c (by rw [hd]; exact List.mem_cons_self _ _)
        have h2 := List.head_dropWhile_not isWhiteSpace s.data (by rw [hd]; simp)
        simp only [hd, List.head_cons] at h2
        rw [h1] at h2
        simp at h2
    exact List.dropWhile_eq_nil_iff.mp hnil
  · intro h c hc
    exact h c ((List.dropWhile_sublist _).subset hc)

/-- C3: `handleInputChange` on any state `s` and any string `raw`.  A valid `raw` commits
`normalizeHex raw` as `color` and `inputValue`, empties `error` and resets `copied`.  An invalid
`raw` leaves `color` unchanged, sets `inputValue = raw`, and `error` is the format message exactly
when `raw` is not blank (`trim raw ≠ ""`, that is, some character of `raw` is not white space)
and is empty otherwise.  `showSliders` never changes.  From `color = inputValue = "#123456"`,
the input `"#ABCDEF"` gives `color = inputValue = "#abcdef"`, and the input `"red"` keeps the
colour, with `inputValue = "red"` and the format message. -/
theorem handleInputChange_spec (s : UIState) (raw : String) :
    (isValidHex raw = true →
      handleInputChange s raw =
        { color := normalizeHex raw, inputValue := normalizeHex raw, copied := false,
          error := "", showSliders := s.showSliders }) ∧
    (isValidHex raw = false →
      (handleInputChange s raw).color = s.color ∧
      (handleInputChange s raw).inputValue = raw ∧
      (handleInputChange s raw).copied = s.copied ∧
      ((handleInputChange s raw).error = formatMessage ↔ trim raw ≠ "") ∧
      ((handleInputChange s raw).error = "" ↔ trim raw = "")) ∧
    (trim raw = "" ↔ ∀ c ∈ raw.data, isWhiteSpace c = true) ∧
    (handleInputChange s raw).showSliders = s.showSliders ∧
    handleInputChange { s with color := "#123456", inputValue := "#123456" } "#ABCDEF" =
      { color := "#abcdef", inputValue := "#abcdef", copied := false, error := "",
        showSliders := s.showSliders } ∧
    handleInputChange { s with color := "#123456", inputValue := "#123456" } "red" =
      { color := "#123456", inputValue := "red", copied := s.copied, error := formatMessage,
        showSliders := s.showSliders } := by
  refine ⟨?_, ?_, trim_eq_empty_iff raw, ?_, ?_, ?_⟩
  · intro hv
    simp [handleInputChange, hv]
  · intro hv
    by_cases ht : trim raw = ""
    · simp [handleInputChange, hv, ht, formatMessage_ne_empty.symm]
    · simp [handleInputChange, hv, ht, formatMessage_ne_empty]
  · by_cases hv : isValidHex raw = true
    · simp [handleInputChange, hv]
    · by_cases ht : trim raw = "" <;> simp [handleInputChange, hv, ht]
  · have h1 : isValidHex "#ABCDEF" = true := by decide
    have h2 : normalizeHex "#ABCDEF" = "#abcdef" := by decide
    simp [handleInputChange, h1, h2]
  · have h1 : isValidHex "red" = false := by decide
    have h2 : trim "red" ≠ "" := by decide
    simp [handleInputChange, h1, h2]

theorem handleInputChange_spec_witness :
    isValidHex "Ff00aA" = true ∧
    handleInputChange
        { color := "#123456", inputValue := "#123456", copied := true, error := "",
          showSliders := true } "Ff00aA" =
      { color := normalizeHex "Ff00aA", inputValue := normalizeHex "Ff00aA", copied := false,
        error := "", showSliders := true } :=
  ⟨by decide,
    (handleInputChange_spec
      { color := "#123456", inputValue := "#123456", copied := true, error := "",
        showSliders := true } "Ff00aA").1 (by decide)⟩

/-! ## Sliders -/

set_option maxRecDepth 1000000 in
theorem parseInt_toString_fin :
    ∀ v : Fin 256, parseInt (toString v.val) 0 = some (v.val : Int) := by
  decide

theorem parseInt_toString (v : Nat) (hv : v ≤ 255) :
    parseInt (toString v) 0 = some (v : Int) :=
  parseInt_toString_fin ⟨v, by omega⟩

/-- Every channel decoded by `hexToRgb` is an integer in `[0, 255]`. -/
theorem hexToRgb_range (hex : String) :
    ∃ r g b : Int, (0 ≤ r ∧ r ≤ 255) ∧ (0 ≤ g ∧ g ≤ 255) ∧ (0 ≤ b ∧ b ≤ 255) ∧
      hexToRgb hex = { r := some r, g := some g, b := some b } := by
  refine ⟨_, _, _, ?_, ?_, ?_, rfl⟩ <;> constructor <;> omega

theorem rgbToHex_set_bytes (hex : String) (channel : Channel) (v : Nat) (hv : v ≤ 255) :
    ∃ n, ((hexToRgb hex).set channel (some (v : Int))) =
        { r := some ((n / 65536 : Nat) : Int), g := some ((n / 256 % 256 : Nat) : Int),
          b := some ((n % 256 : Nat) : Int) } ∧ n < 16777216 ∧
      rgbToHex ((hexToRgb hex).set channel (some (v : Int))).r
        ((hexToRgb hex).set channel (some (v : Int))).g
        ((hexToRgb hex).set channel (some (v : Int))).b = String.mk ('#' :: hexFixed 6 n) := by
  obtain ⟨r, g, b, hr, hg, hb, hrgb⟩ := hexToRgb_range hex
  rw [hrgb]
  cases channel
  · refine ⟨v * 65536 + g.toNat * 256 + b.toNat, ?_, by omega, ?_⟩
    · simp only [RGB.set]
      congr 2 <;> omega
    · exact rgbToHex_bytes (v : Int) g b (by omega) hg hb
  · refine ⟨r.toNat * 65536 + v * 256 + b.toNat, ?_, by omega, ?_⟩
    · simp only [RGB.set]
      congr 2 <;> omega
    · exact rgbToHex_bytes r (v : Int) b hr (by omega) hb
  · refine ⟨r.toNat * 65536 + g.toNat * 256 + v, ?_, by omega, ?_⟩
    · simp only [RGB.set]
      congr 2 <;> omega
    · exact rgbToHex_bytes r g (v : Int) hr hg (by omega)

theorem handleSliderChange_color (s : UIState) (channel : Channel) (v : Nat) (hv : v ≤ 255) :
    (handleSliderChange s channel (toString v)).color =
      rgbToHex ((hexToRgb s.color).set channel (some (v : Int))).r
        ((hexToRgb s.color).set channel (some (v : Int))).g
        ((hexToRgb s.color).set channel (some (v : Int))).b := by
  simp only [handleSliderChange, parseInt_toString v hv]

theorem isNormalizedHex_handleSliderChange (s : UIState) (channel : Channel) (v : Nat)
    (hv : v ≤ 255) : isNormalizedHex (handleSliderChange s channel (toString v)).color = true := by
  rw [handleSliderChange_color s channel v hv]
  obtain ⟨n, -, -, hn⟩ := rgbToHex_set_bytes s.color channel v hv
  rw [hn]
  exact isNormalizedHex_hexFixed n

/-- C4: on a state whose colour is a normalized hex string, for a channel `ch` and an integer
`v` in `[0, 255]`, `handleSliderChange` sets `color` to the hex encoding of the current colour's
RGB triple with channel `ch` replaced by `v`; decoding the new colour gives `v` on `ch` and the
previous values on the other two channels; `inputValue` equals the new colour, `error` is empty,
`copied` is false and `showSliders` is unchanged.  From the colour `"#000000"`, the red slider
at 255 gives `"#ff0000"`. -/
theorem handleSliderChange_spec (s : UIState) (ch : Channel) (v : Nat)
    (_hc : isNormalizedHex s.color = true) (hv : v ≤ 255) :
    (handleSliderChange s ch (toString v)).color =
      rgbToHex ((hexToRgb s.color).set ch (some (v : Int))).r
        ((hexToRgb s.color).set ch (some (v : Int))).g
        ((hexToRgb s.color).set ch (some (v : Int))).b ∧
    hexToRgb (handleSliderChange s ch (toString v)).color =
      (hexToRgb s.color).set ch (some (v : Int)) ∧
    (hexToRgb (handleSliderChange s ch (toString v)).color).get ch = some (v : Int) ∧
    (∀ other : Channel, other ≠ ch →
      (hexToRgb (handleSliderChange s ch (toString v)).color).get other =
        (hexToRgb s.color).get other) ∧
    (handleSliderChange s ch (toString v)).inputValue =
      (handleSliderChange s ch (toString v)).color ∧
    (handleSliderChange s ch (toString v)).error = "" ∧
    (handleSliderChange s ch (toString v)).copied = false ∧
    (handleSliderChange s ch (toString v)).showSliders = s.showSliders ∧
    (handleSliderChange { s with color := "#000000" } Channel.r (toString (255 : Nat))).color =
      "#ff0000" := by
  have hcol := handleSliderChange_color s ch v hv
  have hdec : hexToRgb (handleSliderChange s ch (toString v)).color =
      (hexToRgb s.color).set ch (some (v : Int)) := by
    rw [hcol]
    obtain ⟨n, hset, hn, hhex⟩ := rgbToHex_set_bytes s.color ch v hv
    rw [hhex, hexToRgb_hexFixed n hn, hset]
  refine ⟨hcol, hdec, ?_, ?_, rfl, rfl, rfl, rfl, ?_⟩
  · rw [hdec]
    cases ch <;> rfl
  · intro other hne
    rw [hdec]
    cases ch <;> cases other <;> first | rfl | exact absurd rfl hne
  · rw [handleSliderChange_color _ _ _ (by decide)]
    show rgbToHex ((hexToRgb "#000000").set Channel.r (some ((255 : Nat) : Int))).r
      ((hexToRgb "#000000").set Channel.r (some ((255 : Nat) : Int))).g
      ((hexToRgb "#000000").set Channel.r (some ((255 : Nat) : Int))).b = "#ff0000"
    decide

theorem handleSliderChange_spec_witness :
    isNormalizedHex "#12abff" = true ∧ 7 ≤ 255 ∧
    hexToRgb (handleSliderChange
        { color := "#12abff", inputValue := "#12a", copied := true, error := formatMessage,
          showSliders := true } Channel.g (toString (7 : Nat))).color =
      (hexToRgb "#12abff").set Channel.g (some ((7 : Nat) : Int)) :=
  ⟨by decide, by decide,
    (handleSliderChange_spec
      { color := "#12abff", inputValue := "#12a", copied := true, error := formatMessage,
        showSliders := true } Channel.g 7 (by decide) (by decide)).2.1⟩

/-! ## Invariants of the reachable states -/

theorem isCanonicalHex_of_isNormalizedHex (s : String) (h : isNormalizedHex s = true) :
    IsCanonicalHex s := by
  obtain ⟨t, rfl, hlen, hall⟩ := isNormalizedHex_cases s h
  refine ⟨by simp [String.length, hlen], t, rfl, hlen, ?_⟩
  intro c hc
  have := hall c hc
  simpa [isLowerHexDigit] using this

theorem isNormalizedHex_step (s : UIState) (e : Event) (he : e.Admissible)
    (h : isNormalizedHex s.color = true) : isNormalizedHex (step s e).color = true := by
  cases e with
  | textInput raw =>
    by_cases hv : isValidHex raw = true
    · simp only [step, handleInputChange, hv, if_true]
      exact isNormalizedHex_normalizeHex raw hv
    · by_cases ht : trim raw = "" <;> simpa [step, handleInputChange, hv, ht] using h
  | sliderChange channel value => exact isNormalizedHex_handleSliderChange s channel value he
  | shuffle u => exact isNormalizedHex_generateRandomHex u he.1 he.2
  | toggleSliders => exact h
  | copy => exact h
  | copyTimeout => exact h

theorem isNormalizedHex_run (es : List Event) :
    ∀ s : UIState, (∀ e ∈ es, e.Admissible) → isNormalizedHex s.color = true →
      isNormalizedHex (run s es).color = true := by
  induction es with
  | nil => intro s _ h; exact h
  | cons e es ih =>
    intro s hall h
    have hstep := isNormalizedHex_step s e (hall e (List.mem_cons_self _ _)) h
    exact ih (step s e) (fun x hx => hall x (List.mem_cons_of_mem _ hx)) hstep

/-- C6: in every state reached from an initial state (any draw `u` in `[0, 1)`) by a finite
sequence of text inputs (any string), slider changes (any channel, integer in `[0, 255]`),
shuffles (any draw in `[0, 1)`), slider-panel toggles, copies and copy-timer expiries, the
committed colour is exactly 7 characters: `#` followed by 6 lowercase hexadecimal digits. -/
theorem color_canonical_of_reachable (u : ℚ) (h0 : 0 ≤ u) (h1 : u < 1) (es : List Event)
    (hes : ∀ e ∈ es, e.Admissible) : IsCanonicalHex (run (initialState u) es).color :=
  isCanonicalHex_of_isNormalizedHex _
    (isNormalizedHex_run es (initialState u) hes (isNormalizedHex_generateRandomHex u h0 h1))

theorem color_canonical_of_reachable_witness :
    IsCanonicalHex (run (initialState (1 / 2))
      [Event.textInput "#AbCdEf", Event.textInput "zz", Event.sliderChange Channel.b 200,
        Event.copy, Event.shuffle (3 / 4), Event.toggleSliders, Event.copyTimeout]).color :=
  color_canonical_of_reachable (1 / 2) (by norm_num) (by norm_num) _ (by
    intro e he
    simp only [List.mem_cons, List.mem_singleton, List.not_mem_nil, or_false] at he
    rcases he with rfl | rfl | rfl | rfl | rfl | rfl | rfl <;>
      simp only [Event.Admissible] <;> norm_num)

/-- The relation between `error` and `inputValue` kept by every handler. -/
theorem error_iff_step (s : UIState) (e : Event) (he : e.Admissible)
    (h : s.error ≠ "" ↔ (trim s.inputValue ≠ "" ∧ isValidHex s.inputValue = false)) :
    (step s e).error ≠ "" ↔
      (trim (step s e).inputValue ≠ "" ∧ isValidHex (step s e).inputValue = false) := by
  have hnorm : ∀ c : String, isNormalizedHex c = true →
      (("" : String) ≠ "" ↔ (trim c ≠ "" ∧ isValidHex c = false)) := by
    intro c hc
    simp [isValidHex_of_isNormalizedHex c hc]
  cases e with
  | textInput raw =>
    by_cases hv : isValidHex raw = true
    · have := hnorm _ (isNormalizedHex_normalizeHex raw hv)
      simpa [step, handleInputChange, hv] using this
    · by_cases ht : trim raw = ""
      · simp [step, handleInputChange, hv, ht]
      · simp [step, handleInputChange, hv, ht, formatMessage_ne_empty]
  | sliderChange channel value =>
    exact hnorm _ (isNormalizedHex_handleSliderChange s channel value he)
  | shuffle u => exact hnorm _ (isNormalizedHex_generateRandomHex u he.1 he.2)
  | toggleSliders => exact h
  | copy => exact h
  | copyTimeout => exact h

theorem error_iff_run (es : List Event) :
    ∀ s : UIState, (∀ e ∈ es, e.Admissible) →
      (s.error ≠ "" ↔ (trim s.inputValue ≠ "" ∧ isValidHex s.inputValue = false)) →
      ((run s es).error ≠ "" ↔
        (trim (run s es).inputValue ≠ "" ∧ isValidHex (run s es).inputValue = false)) := by
  induction es with
  | nil => intro s _ h; exact h
  | cons e es ih =>
    intro s hall h
    exact ih (step s e) (fun x hx => hall x (List.mem_cons_of_mem _ hx))
      (error_iff_step s e (hall e (List.mem_cons_self _ _)) h)

/-- C7 (counterexample): after the text input `" "` (one space) the error message is empty
although `inputValue` is the non-empty string `" "` and fails validation. -/
theorem error_iff_nonempty_invalid_fails :
    (0 : ℚ) ≤ 0 ∧ (0 : ℚ) < 1 ∧ (∀ e ∈ [Event.textInput " "], e.Admissible) ∧
    ¬ ((run (initialState 0) [Event.textInput " "]).error ≠ "" ↔
      ((run (initialState 0) [Event.textInput " "]).inputValue ≠ "" ∧
        isValidHex (run (initialState 0) [Event.textInput " "]).inputValue = false)) := by
  refine ⟨le_refl _, by norm_num, ?_, ?_⟩
  · intro e he
    simp only [List.mem_singleton] at he
    subst he
    trivial
  · have hv : isValidHex " " = false := by decide
    have ht : trim " " = "" := by decide
    have hne : (" " : String) ≠ "" := by decide
    simp [run, step, handleInputChange, hv, ht, hne]

/-- C7 (amended): in every reachable state the error message is non-empty if and only if
`inputValue` is non-empty after trimming white space and fails validation. -/
theorem error_iff_nonblank_invalid (u : ℚ) (h0 : 0 ≤ u) (h1 : u < 1) (es : List Event)
    (hes : ∀ e ∈ es, e.Admissible) :
    (run (initialState u) es).error ≠ "" ↔
      (trim (run (initialState u) es).inputValue ≠ "" ∧
        isValidHex (run (initialState u) es).inputValue = false) := by
  apply error_iff_run es (initialState u) hes
  have hv := isValidHex_of_isNormalizedHex _ (isNormalizedHex_generateRandomHex u h0 h1)
  simp [initialState, hv]

theorem error_iff_nonblank_invalid_witness :
    (run (initialState (1 / 2)) [Event.textInput "#12", Event.toggleSliders]).error ≠ "" ↔
      (trim (run (initialState (1 / 2))
          [Event.textInput "#12", Event.toggleSliders]).inputValue ≠ "" ∧
        isValidHex (run (initialState (1 / 2))
          [Event.textInput "#12", Event.toggleSliders]).inputValue = false) :=
  error_iff_nonblank_invalid (1 / 2) (by norm_num) (by norm_num) _ (by
    intro e he
    simp only [List.mem_cons, List.mem_singleton, List.not_mem_nil, or_false] at he
    rcases he with rfl | rfl <;> trivial)

/-! ## Contrast -/

theorem getLuminance_eq (c : String) (r g b : Int)
    (hrgb : hexToRgb c = { r := some r, g := some g, b := some b }) :
    getLuminance c = 0.2126 * (r : ℚ) + 0.7152 * (g : ℚ) + 0.0722 * (b : ℚ) := by
  simp only [hexToRgb, RGB.mk.injEq] at hrgb
  obtain ⟨hr, hg, hb⟩ := hrgb
  simp only [getLuminance, hr, hg, hb, Option.getD_some]

/-- C5: for a normalized hex colour `c` with channels `(r, g, b)`, `contrastColor c` is
`"#ffffff"` when `0.2126 r + 0.7152 g + 0.0722 b ≤ 128` and `"#000000"` when that sum exceeds
`128`, the sum being exact; `contrastColor "#ffffff" = "#000000"` and
`contrastColor "#000000" = "#ffffff"`. -/
theorem contrastColor_spec (c : String) (_hc : isNormalizedHex c = true) (r g b : Int)
    (hrgb : hexToRgb c = { r := some r, g := some g, b := some b }) :
    (0.2126 * (r : ℚ) + 0.7152 * (g : ℚ) + 0.0722 * (b : ℚ) ≤ 128 →
      contrastColor c = "#ffffff") ∧
    (0.2126 * (r : ℚ) + 0.7152 * (g : ℚ) + 0.0722 * (b : ℚ) > 128 →
      contrastColor c = "#000000") ∧
    contrastColor "#ffffff" = "#000000" ∧ contrastColor "#000000" = "#ffffff" := by
  have hl := getLuminance_eq c r g b hrgb
  have hw : getLuminance "#ffffff" = 0.2126 * ((255 : Int) : ℚ) + 0.7152 * ((255 : Int) : ℚ) +
      0.0722 * ((255 : Int) : ℚ) := getLuminance_eq _ 255 255 255 (by decide)
  have hk : getLuminance "#000000" = 0.2126 * ((0 : Int) : ℚ) + 0.7152 * ((0 : Int) : ℚ) +
      0.0722 * ((0 : Int) : ℚ) := getLuminance_eq _ 0 0 0 (by decide)
  refine ⟨?_, ?_, ?_, ?_⟩
  · intro h
    have : ¬ getLuminance c > 128 := by rw [hl]; exact not_lt.mpr h
    simp [contrastColor, isLightColor, this]
  · intro h
    have : getLuminance c > 128 := by rw [hl]; exact h
    simp [contrastColor, isLightColor, this]
  · have : getLuminance "#ffffff" > 128 := by rw [hw]; norm_num
    simp [contrastColor, isLightColor, this]
  · have : ¬ getLuminance "#000000" > 128 := by rw [hk]; norm_num
    simp [contrastColor, isLightColor, this]

theorem contrastColor_spec_witness :
    isNormalizedHex "#808080" = true ∧
    hexToRgb "#808080" = { r := some 128, g := some 128, b := some 128 } ∧
    contrastColor "#808080" = "#ffffff" :=
  ⟨by decide, by decide,
    (contrastColor_spec "#808080" (by decide) 128 128 128 (by decide)).1 (by norm_num)⟩

/-! ## The copy indicator -/

/-- C10 (counterexample): clipboard writes resolve at `0` ms and at `1000` ms; at `2000` ms,
inside `[1000, 3000)`, the flag `copied` is already false, the callback of the first copy having
run. -/
theorem copied_not_debounced :
    0 < 1000 ∧ 1000 < 0 + 2000 ∧ 1000 ≤ 2000 ∧ 2000 < 1000 + 2000 ∧
    copiedAfterTwoCopies
      { color := "#000000", inputValue := "#000000", copied := false, error := "",
        showSliders := false } 0 1000 2000 = false := by
  decide

/-- C10 (amended): clipboard writes resolve at `t0` and at `t1` with `t0 < t1 < t0 + 2000`, no
other event occurs and no timer was pending; then `copied` is true at every instant of
`[t1, t0 + 2000)` and false at every instant from `t0 + 2000` on: the callback scheduled by the
first copy is not cancelled by the second. -/
theorem copied_after_two_copies (s : UIState) (t0 t1 : Nat) (h01 : t0 < t1)
    (h10 : t1 < t0 + 2000) :
    (∀ t, t1 ≤ t → t < t0 + 2000 → copiedAfterTwoCopies s t0 t1 t = true) ∧
    (∀ t, t0 + 2000 ≤ t → copiedAfterTwoCopies s t0 t1 t = false) := by
  have hn1 : ¬ t0 + 2000 ≤ t1 := by omega
  have hmax : max t0 t1 = t1 := by omega
  constructor
  · intro t ht1 ht
    have a1 : ¬ t0 + 2000 ≤ t := by omega
    have a2 : ¬ t1 + 2000 ≤ t := by omega
    simp [copiedAfterTwoCopies, Timed.start, Timed.copy, Timed.advance, handleCopy, copyTimeout,
      List.filter, hn1, hmax, a1, a2]
  · intro t ht
    have a1 : t0 + 2000 ≤ t := ht
    by_cases a2 : t1 + 2000 ≤ t <;>
      simp [copiedAfterTwoCopies, Timed.start, Timed.copy, Timed.advance, handleCopy,
        copyTimeout, List.filter, hn1, hmax, a1, a2]

theorem copied_after_two_copies_witness :
    0 < 1000 ∧ 1000 < 0 + 2000 ∧
    copiedAfterTwoCopies
      { color := "#000000", inputValue := "#000000", copied := false, error := "",
        showSliders := false } 0 1000 2500 = false :=
  ⟨by decide, by decide,
    (copied_after_two_copies
      { color := "#000000", inputValue := "#000000", copied := false, error := "",
        showSliders := false } 0 1000 (by decide) (by decide)).2 2500 (by decide)⟩

end ColorGenerator
